import Mathlib

/- Formal model of the water ring-toss simulation core of this repository.
   The embedded code is the per-frame `animate` loop of src/unnamed/part_000
   (the variant carrying the win callback; src/components/WaterGame.tsx is a
   near-duplicate of the same loop with different tuning constants).

   Modelling conventions:
   * JavaScript numbers are modelled as real numbers.
   * Each call site of Math.random() is modelled as a value supplied by the
     per-frame environment `Env`, indexed by the ring being processed (and by
     the post, for the hooking draw).  No distributional assumption is made.
   * THREE.Vector3 is modelled componentwise; its `normalize` divides by
     `length() || 1`, so a zero-length vector is divided by 1 and stays zero.
   * The bubble subsystem of the loop touches no ring state and no claim
     mentions it, so it is not part of the ring-state model.
   * The mutable ring array of the loop is modelled as a `List RingState`
     threaded through the per-index passes in source order. -/

noncomputable section

/-- Componentwise model of THREE.Vector3 over the reals. -/
@[ext]
structure Vec3 where
  x : ℝ
  y : ℝ
  z : ℝ

namespace Vec3

/-- The zero vector, the result of `velocity.set(0, 0, 0)`. -/
def zero : Vec3 := ⟨0, 0, 0⟩

/-- Vector addition (`Vector3.add`). -/
def add (a b : Vec3) : Vec3 := ⟨a.x + b.x, a.y + b.y, a.z + b.z⟩

/-- Vector subtraction (`Vector3.sub` / `subVectors`). -/
def sub (a b : Vec3) : Vec3 := ⟨a.x - b.x, a.y - b.y, a.z - b.z⟩

/-- Scalar multiplication (`Vector3.multiplyScalar`). -/
def smul (c : ℝ) (a : Vec3) : Vec3 := ⟨c * a.x, c * a.y, c * a.z⟩

/-- Dot product (`Vector3.dot`). -/
def dot (a b : Vec3) : ℝ := a.x * b.x + a.y * b.y + a.z * b.z

/-- Euclidean length (`Vector3.length`). -/
def length (a : Vec3) : ℝ := Real.sqrt (a.x * a.x + a.y * a.y + a.z * a.z)

/-- THREE.Vector3.normalize: `divideScalar(length() || 1)`.  Since a length is
never negative, the JavaScript falsy test `|| 1` fires exactly on length 0, so
the zero vector is divided by 1 and normalizes to itself. -/
def normalize (a : Vec3) : Vec3 :=
  smul (1 / (if a.length = 0 then 1 else a.length)) a

end Vec3

/-- Number of rings in a session (src/unnamed/part_000 line 11). -/
def RING_COUNT : ℕ := 8

/-- Gravity constant (line 12). -/
def GRAVITY : ℝ := -0.0038

/-- Buoyancy constant (line 13). -/
def BUOYANCY : ℝ := 0.0035

/-- Linear water drag factor (line 14). -/
def WATER_DRAG : ℝ := 0.94

/-- Magnitude of the vortex push (line 15). -/
def PUSH_FORCE : ℝ := 0.022

/-- Angular drag factor (line 16). -/
def ROTATION_DRAG : ℝ := 0.95

/-- Tank size (line 17). -/
def TANK_SIZE : ℝ := 10

/-- Needle (post) radius (line 18). -/
def NEEDLE_RADIUS : ℝ := 0.12

/-- Needle height (line 19); render-only, kept for completeness. -/
def NEEDLE_HEIGHT : ℝ := 5.5

/-- Ring major radius (line 20). -/
def RING_RADIUS : ℝ := 0.52

/-- Ring cross-sectional thickness (line 21). -/
def RING_THICKNESS : ℝ := 0.15

/-- Collision sphere radius (line 24). -/
def COLLISION_RADIUS : ℝ := RING_RADIUS + RING_THICKNESS

/-- The two posts, the values 'left' and 'right' of the `hookedTo` field. -/
inductive Side where
  | left
  | right
deriving DecidableEq

/-- Per-ring state (interface RingState, lines 26-32).  The mesh's transform
is flattened into the `position` and `rotation` fields. -/
structure RingState where
  position : Vec3
  rotation : Vec3
  velocity : Vec3
  angularVelocity : Vec3
  isHooked : Bool
  hookedTo : Option Side

/-- Per-frame inputs: the two current flags read from the shared scene ref,
plus one real value for every Math.random() call site of the ring loop,
indexed by the ring index (and the post for the hooking draw). -/
structure Env where
  leftActive : Bool
  rightActive : Bool
  randFX : ℕ → ℝ
  randFY : ℕ → ℝ
  randAX : ℕ → ℝ
  randAY : ℕ → ℝ
  randHook : ℕ → Side → ℝ

/-- JavaScript Math.sign: 1 for positives, -1 for negatives, 0 at 0. -/
def jsSign (x : ℝ) : ℝ := if 0 < x then 1 else if x < 0 then -1 else 0

/-- Truncation toward zero, the rounding used by the JavaScript `%`. -/
def truncR (q : ℝ) : ℝ := if q < 0 then (⌈q⌉ : ℝ) else (⌊q⌋ : ℝ)

/-- JavaScript remainder `a % b`: `a - b * trunc (a / b)`. -/
def jsFmod (a b : ℝ) : ℝ := a - b * truncR (a / b)

/-- Post axis X coordinate: the loop `[-2.5, 2.5].forEach` (line 262). -/
def postX : Side → ℝ
  | Side.left => -2.5
  | Side.right => 2.5

/-- Horizontal distance from a ring's center to a post axis, ignoring Y
(lines 264-266). -/
def distToAxis (nx : ℝ) (r : RingState) : ℝ :=
  Real.sqrt ((r.position.x - nx) * (r.position.x - nx) +
    r.position.z * r.position.z)

/-- The three conjunctive hooking conditions `isNearAxis`, `isInYRange` and
`isThreadableAngle` (lines 270-275). -/
def hookGeom (nx : ℝ) (r : RingState) : Prop :=
  distToAxis nx r < NEEDLE_RADIUS + RING_RADIUS * 0.5 ∧
  (r.position.y < 1.6 ∧ r.position.y > -3.5) ∧
  |(|jsFmod r.rotation.x Real.pi|) - Real.pi / 2| < 1.3

/-- The hooking trigger disjunction (line 277): falling, near the exact axis,
or the stochastic acceptance `Math.random() < 0.05`. -/
def hookTrigger (env : Env) (idx : ℕ) (nx : ℝ) (side : Side)
    (r : RingState) : Prop :=
  r.velocity.y < 0 ∨ distToAxis nx r < NEEDLE_RADIUS ∨
    env.randHook idx side < 0.05

instance (nx : ℝ) (r : RingState) : Decidable (hookGeom nx r) := by
  unfold hookGeom
  infer_instance

instance (env : Env) (idx : ℕ) (nx : ℝ) (side : Side) (r : RingState) :
    Decidable (hookTrigger env idx nx side r) := by
  unfold hookTrigger
  infer_instance

/-- Hooking test for one post (lines 262-284): on success set the hook state
and zero both velocities. -/
def hookCheckPost (env : Env) (idx : ℕ) (nx : ℝ) (side : Side)
    (r : RingState) : RingState :=
  if hookGeom nx r then
    if hookTrigger env idx nx side r then
      { r with isHooked := true, hookedTo := some side,
               velocity := Vec3.zero, angularVelocity := Vec3.zero }
    else r
  else r

/-- The full hooking phase: the posts are tested in source order, left then
right, on the evolving ring state. -/
def hookPhase (env : Env) (idx : ℕ) (r : RingState) : RingState :=
  hookCheckPost env idx 2.5 Side.right
    (hookCheckPost env idx (-2.5) Side.left r)

/-- Net force on a free ring (lines 185-202): gravity-plus-buoyancy base,
plus, while a current is active, the normalized vortex field scaled by
PUSH_FORCE and the random turbulence jitter. -/
def forceOf (env : Env) (idx : ℕ) (r : RingState) : Vec3 :=
  let base : Vec3 := ⟨0, GRAVITY + BUOYANCY, 0⟩
  if env.leftActive || env.rightActive then
    let vortex :=
      if env.leftActive then
        (Vec3.normalize ⟨r.position.y * 0.4, -r.position.x * 0.4, 0⟩).smul
          PUSH_FORCE
      else
        (Vec3.normalize ⟨-r.position.y * 0.4, r.position.x * 0.4, 0⟩).smul
          PUSH_FORCE
    let f1 := base.add vortex
    ⟨f1.x + (env.randFX idx - 0.5) * 0.005,
     f1.y + (env.randFY idx - 0.5) * 0.005, f1.z⟩
  else base

/-- Angular velocity after the turbulence jitter (lines 204-205). -/
def angVelOf (env : Env) (idx : ℕ) (r : RingState) : Vec3 :=
  if env.leftActive || env.rightActive then
    ⟨r.angularVelocity.x + (env.randAX idx - 0.5) * 0.012,
     r.angularVelocity.y + (env.randAY idx - 0.5) * 0.012,
     r.angularVelocity.z⟩
  else r.angularVelocity

/-- Free-body integration step (lines 208-215): accumulate force, apply
linear drag, advance position, apply angular drag, advance orientation. -/
def freeDynamics (env : Env) (idx : ℕ) (r : RingState) : RingState :=
  let vel := (r.velocity.add (forceOf env idx r)).smul WATER_DRAG
  let pos := r.position.add vel
  let av := (angVelOf env idx r).smul ROTATION_DRAG
  let rot := r.rotation.add av
  { r with position := pos, velocity := vel, angularVelocity := av,
           rotation := rot }

/-- Pairwise collision resolution (lines 218-240) between the ring currently
being processed and one later ring: hooked partners are skipped; a pair
closer than `COLLISION_RADIUS * 1.6` is pushed apart by 0.4 of the overlap on
each side along the normalized separation, and a converging relative velocity
receives an equal-and-opposite impulse. -/
def collidePair (r other : RingState) : RingState × RingState :=
  if other.isHooked then (r, other)
  else
    let diff := r.position.sub other.position
    let distance := diff.length
    let minDistance := COLLISION_RADIUS * 1.6
    if distance < minDistance then
      let overlap := minDistance - distance
      let pushDir := diff.normalize
      let push := pushDir.smul (overlap * 0.4)
      let r1 := { r with position := r.position.add push }
      let o1 := { other with position := other.position.sub push }
      let vRel := r1.velocity.sub o1.velocity
      let d := vRel.dot pushDir
      if d < 0 then
        let impulse := pushDir.smul (d * 0.7)
        ({ r1 with velocity := r1.velocity.sub impulse },
         { o1 with velocity := o1.velocity.add impulse })
      else (r1, o1)
    else (r, other)

/-- Inner collision loop over a list of partner indices, threading the
current ring and the ring list. -/
def collideLoop (l : List ℕ) (acc : RingState × List RingState) :
    RingState × List RingState :=
  l.foldl
    (fun acc j =>
      match acc.2.get? j with
      | some other =>
        let p := collidePair acc.1 other
        (p.1, acc.2.set j p.2)
      | none => acc)
    acc

/-- Collision pass of ring `idx` against all later rings
(`for j = idx + 1; j < rings.length`). -/
def collideFrom (idx : ℕ) (r : RingState) (rs : List RingState) :
    RingState × List RingState :=
  collideLoop (List.range' (idx + 1) (rs.length - (idx + 1))) (r, rs)

/-- Boundary containment (lines 244-259): per axis, clamp an escaped position
to the half-extent and damp-reflect that velocity component. -/
def clampBoundary (r : RingState) : RingState :=
  let hX := TANK_SIZE / 2 - RING_RADIUS
  let hY := TANK_SIZE / 2 - RING_RADIUS
  let hZ := (1.3 : ℝ) - RING_THICKNESS
  let px := if hX < |r.position.x| then jsSign r.position.x * hX
            else r.position.x
  let vx := if hX < |r.position.x| then r.velocity.x * (-0.5)
            else r.velocity.x
  let py := if hY < |r.position.y| then jsSign r.position.y * hY
            else r.position.y
  let vy := if hY < |r.position.y| then r.velocity.y * (-0.5)
            else r.velocity.y
  let pz := if hZ < |r.position.z| then jsSign r.position.z * hZ
            else r.position.z
  let vz := if hZ < |r.position.z| then r.velocity.z * (-0.5)
            else r.velocity.z
  { r with position := ⟨px, py, pz⟩, velocity := ⟨vx, vy, vz⟩ }

/-- Free-ring branch of the per-ring pass (lines 184-284): integrate, collide
against later rings, clamp to the tank, then run the hooking phase, and store
the result back at `idx`. -/
def processFree (env : Env) (idx : ℕ) (r : RingState)
    (rs : List RingState) : List RingState :=
  let r1 := freeDynamics env idx r
  let res := collideFrom idx r1 rs
  let r3 := clampBoundary res.1
  let r4 := hookPhase env idx r3
  res.2.set idx r4

/-- Stacking floor computation (lines 159-168): `floorY` starts at the base
top and is raised over every other ring hooked to the same post whose
vertical gap to this ring lies in the window `(-0.01, RING_THICKNESS * 2.8)`.
The counter `k` tracks the `forEach` index. -/
def floorLoop (r : RingState) (idx : ℕ) : ℝ → ℕ → List RingState → ℝ
  | acc, _, [] => acc
  | acc, k, other :: rest =>
    let acc' :=
      if k ≠ idx ∧ other.isHooked = true ∧ other.hookedTo = r.hookedTo then
        (let dist := r.position.y - other.position.y
         if dist > -0.01 ∧ dist < RING_THICKNESS * 2.8 then
           max acc (other.position.y + RING_THICKNESS * 2.2)
         else acc)
      else acc
    floorLoop r idx acc' (k + 1) rest

/-- The floor height of hooked ring `idx`, starting from the base top height
`baseY = -3.4` (line 154). -/
def computeFloorY (rs : List RingState) (idx : ℕ) (r : RingState) : ℝ :=
  floorLoop r idx (-3.4) 0 rs

/-- Hooked-ring branch of the per-ring pass (lines 150-181): slide X/Z toward
the post axis, descend toward the stacking floor (snapping to it and zeroing
velocity on arrival), and settle the orientation flat. -/
def hookedUpdate (rs : List RingState) (idx : ℕ) (r : RingState) :
    RingState :=
  let targetX : ℝ := if r.hookedTo = some Side.left then -2.5 else 2.5
  let px := r.position.x + (targetX - r.position.x) * 0.2
  let pz := r.position.z + (0 - r.position.z) * 0.2
  let floorY := computeFloorY rs idx r
  let py := if r.position.y > floorY then r.position.y + GRAVITY * 0.5
            else floorY
  let vel := if r.position.y > floorY then r.velocity else Vec3.zero
  let rx := r.rotation.x + (Real.pi / 2 - r.rotation.x) * 0.15
  { r with position := ⟨px, py, pz⟩, velocity := vel,
           rotation := ⟨rx, r.rotation.y * 0.8, r.rotation.z * 0.8⟩ }

/-- One iteration of the `rings.forEach` body (lines 149-285) together with
the running `hookedCount` tally: a hooked ring is tallied and stack-resolved;
a free ring runs the free branch. -/
def framePass (env : Env) (acc : List RingState × ℕ) (idx : ℕ) :
    List RingState × ℕ :=
  match acc.1.get? idx with
  | none => acc
  | some r =>
    if r.isHooked then (acc.1.set idx (hookedUpdate acc.1 idx r), acc.2 + 1)
    else (processFree env idx r acc.1, acc.2)

/-- The ring passes of one frame up to index `k`, starting from tally 0. -/
def passes (env : Env) (rs : List RingState) (k : ℕ) :
    List RingState × ℕ :=
  (List.range k).foldl (framePass env) (rs, 0)

/-- One whole frame of the ring loop: every index once, in order, returning
the updated rings and the `hookedCount` tally. -/
def frameRings (env : Env) (rs : List RingState) : List RingState × ℕ :=
  passes env rs rs.length

/-- Session state visible across frames: the rings and the one-shot
`winTriggeredRef` flag. -/
structure SimState where
  rings : List RingState
  winTriggered : Bool

/-- One animation frame (lines 140-291): run the ring loop, then fire the win
callback when the tally equals RING_COUNT and the flag is still unset,
latching the flag.  The second component reports whether `onWin` was invoked
this frame. -/
def stepSim (env : Env) (s : SimState) : SimState × Bool :=
  let res := frameRings env s.rings
  let fired := (res.2 == RING_COUNT) && !s.winTriggered
  (⟨res.1, s.winTriggered || fired⟩, fired)

/-- The session trace: state after `n` frames driven by the input stream. -/
def runSim (envs : ℕ → Env) (s : SimState) : ℕ → SimState
  | 0 => s
  | n + 1 => (stepSim (envs n) (runSim envs s n)).1

/-- Whether the win callback fires on frame `n` of the session. -/
def firedAt (envs : ℕ → Env) (s : SimState) (n : ℕ) : Bool :=
  (stepSim (envs n) (runSim envs s n)).2

/-- The `hookedCount` tally of frame `n` of the session. -/
def tallyAt (envs : ℕ → Env) (s : SimState) (n : ℕ) : ℕ :=
  (frameRings (envs n) (runSim envs s n).rings).2

/-- Concrete per-frame inputs used by the closed witness statements: the left
current is held and every random draw returns 0.5. -/
def envW : Env :=
  { leftActive := true, rightActive := false,
    randFX := fun _ => 0.5, randFY := fun _ => 0.5,
    randAX := fun _ => 0.5, randAY := fun _ => 0.5,
    randHook := fun _ _ => 0.5 }

/-- Concrete inputs with no current active. -/
def envQ : Env :=
  { leftActive := false, rightActive := false,
    randFX := fun _ => 0.5, randFY := fun _ => 0.5,
    randAX := fun _ => 0.5, randAY := fun _ => 0.5,
    randHook := fun _ _ => 0.5 }

/-- A free ring resting at the origin of the tank. -/
def ringOrigin : RingState :=
  { position := ⟨0, 0, 0⟩, rotation := ⟨0, 0, 0⟩, velocity := ⟨0, 0, 0⟩,
    angularVelocity := ⟨0, 0, 0⟩, isHooked := false, hookedTo := none }

/-- First ring of a coincident free pair. -/
def ringCoA : RingState :=
  { position := ⟨0.5, 0.2, 0⟩, rotation := ⟨0, 0, 0⟩,
    velocity := ⟨0.01, 0, 0⟩, angularVelocity := ⟨0, 0, 0⟩,
    isHooked := false, hookedTo := none }

/-- Second ring of a coincident free pair, at exactly the same point. -/
def ringCoB : RingState :=
  { position := ⟨0.5, 0.2, 0⟩, rotation := ⟨0.3, 0, 0⟩,
    velocity := ⟨0, 0, 0⟩, angularVelocity := ⟨0, 0, 0⟩,
    isHooked := false, hookedTo := none }

/-- First ring of a deeply overlapping free pair, 0.2 from its partner. -/
def ringOvA : RingState :=
  { position := ⟨0.2, 0, 0⟩, rotation := ⟨0, 0, 0⟩, velocity := ⟨0, 0, 0⟩,
    angularVelocity := ⟨0, 0, 0⟩, isHooked := false, hookedTo := none }

/-- Second ring of the deeply overlapping free pair, at the origin. -/
def ringOvB : RingState :=
  { position := ⟨0, 0, 0⟩, rotation := ⟨0, 0, 0⟩, velocity := ⟨0, 0, 0⟩,
    angularVelocity := ⟨0, 0, 0⟩, isHooked := false, hookedTo := none }

/-- A ring hooked to the left post, settled one stacking step above the
base. -/
def ringStackA : RingState :=
  { position := ⟨-2.5, -3.07, 0⟩, rotation := ⟨0, 0, 0⟩,
    velocity := ⟨0, 0, 0⟩, angularVelocity := ⟨0, 0, 0⟩,
    isHooked := true, hookedTo := some Side.left }

/-- A ring hooked to the left post, settled at the base top height. -/
def ringStackB : RingState :=
  { position := ⟨-2.5, -3.4, 0⟩, rotation := ⟨0, 0, 0⟩,
    velocity := ⟨0, 0, 0⟩, angularVelocity := ⟨0, 0, 0⟩,
    isHooked := true, hookedTo := some Side.left }

/-- A concrete configuration of two settled rings stacked on the left post. -/
def stackW : List RingState := [ringStackA, ringStackB]

/-- The hook-state view of a ring: the two fields the hooking state machine
owns. -/
def hookview (r : RingState) : Bool × Option Side := (r.isHooked, r.hookedTo)

/-- The C4 invariant: every hooked ring has zero velocity and zero angular
velocity. -/
def hookedZero (rs : List RingState) : Prop :=
  ∀ i r, rs.get? i = some r → r.isHooked = true →
    r.velocity = Vec3.zero ∧ r.angularVelocity = Vec3.zero

/-- A constant input stream for the closed witness statements. -/
def envsW : ℕ → Env := fun _ => envW

/-- A one-free-ring session start state. -/
def simW : SimState := { rings := [ringOrigin], winTriggered := false }

/-- A session state holding a single already-hooked ring. -/
def simHooked : SimState := { rings := [ringStackB], winTriggered := false }

end

theorem Vec3.length_nonneg (a : Vec3) : 0 ≤ a.length :=
  Real.sqrt_nonneg _

theorem Vec3.length_smul (c : ℝ) (a : Vec3) :
    (Vec3.smul c a).length = |c| * a.length := by
  unfold Vec3.length Vec3.smul
  have h : c * a.x * (c * a.x) + c * a.y * (c * a.y) + c * a.z * (c * a.z)
      = (c * c) * (a.x * a.x + a.y * a.y + a.z * a.z) := by ring
  simp only [h]
  rw [Real.sqrt_mul (mul_self_nonneg c), Real.sqrt_mul_self_eq_abs]

theorem Vec3.length_zero_vec : (Vec3.mk 0 0 0).length = 0 := by
  unfold Vec3.length
  norm_num

theorem Vec3.normalize_zero : Vec3.normalize ⟨0, 0, 0⟩ = ⟨0, 0, 0⟩ := by
  unfold Vec3.normalize Vec3.smul
  simp [Vec3.length_zero_vec]

theorem Vec3.smul_zero_vec (c : ℝ) : Vec3.smul c ⟨0, 0, 0⟩ = ⟨0, 0, 0⟩ := by
  unfold Vec3.smul
  norm_num

theorem Vec3.add_zero_vec (a : Vec3) : a.add ⟨0, 0, 0⟩ = a := by
  unfold Vec3.add
  norm_num

theorem Vec3.sub_zero_vec (a : Vec3) : a.sub ⟨0, 0, 0⟩ = a := by
  unfold Vec3.sub
  norm_num

theorem Vec3.sub_self_vec (a : Vec3) : a.sub a = ⟨0, 0, 0⟩ := by
  unfold Vec3.sub
  norm_num

theorem Vec3.dot_zero_right (a : Vec3) : a.dot ⟨0, 0, 0⟩ = 0 := by
  unfold Vec3.dot
  norm_num

theorem Vec3.normalize_of_ne_zero (a : Vec3) (h : a.length ≠ 0) :
    a.normalize = Vec3.smul (1 / a.length) a := by
  unfold Vec3.normalize
  rw [if_neg h]

theorem collidePair_coincident (r o : RingState) (ho : o.isHooked = false)
    (hpos : r.position = o.position) : collidePair r o = (r, o) := by
  have hd : r.position.sub o.position = ⟨0, 0, 0⟩ := by
    rw [hpos]
    exact Vec3.sub_self_vec _
  simp only [collidePair, ho, Bool.false_eq_true, if_false, hd,
    Vec3.length_zero_vec, Vec3.normalize_zero, Vec3.smul_zero_vec,
    Vec3.add_zero_vec, Vec3.sub_zero_vec, Vec3.dot_zero_right]
  rw [if_pos (by norm_num [COLLISION_RADIUS, RING_RADIUS, RING_THICKNESS]),
    if_neg (lt_irrefl (0 : ℝ)), ← ho]

theorem collidePair_dist (r o : RingState) (ho : o.isHooked = false)
    (h0 : 0 < (r.position.sub o.position).length)
    (hlt : (r.position.sub o.position).length < COLLISION_RADIUS * 1.6) :
    ((collidePair r o).1.position.sub (collidePair r o).2.position).length
      = COLLISION_RADIUS * 1.6
        - 0.2 * (COLLISION_RADIUS * 1.6 - (r.position.sub o.position).length)
    := by
  have hdne : (r.position.sub o.position).length ≠ 0 := ne_of_gt h0
  set m := COLLISION_RADIUS * 1.6 with hm
  set dv := r.position.sub o.position with hdv
  set d := dv.length with hd
  have hpos1 : (collidePair r o).1.position
      = r.position.add (Vec3.smul ((m - d) * 0.4) (Vec3.smul (1 / d) dv)) := by
    simp only [collidePair, ho, Bool.false_eq_true, if_false, ← hdv, ← hd,
      ← hm]
    rw [if_pos hlt, Vec3.normalize_of_ne_zero dv hdne]
    split <;> rfl
  have hpos2 : (collidePair r o).2.position
      = o.position.sub (Vec3.smul ((m - d) * 0.4) (Vec3.smul (1 / d) dv)) := by
    simp only [collidePair, ho, Bool.false_eq_true, if_false, ← hdv, ← hd,
      ← hm]
    rw [if_pos hlt, Vec3.normalize_of_ne_zero dv hdne]
    split <;> rfl
  rw [hpos1, hpos2]
  have hcomb :
      (r.position.add (Vec3.smul ((m - d) * 0.4) (Vec3.smul (1 / d) dv))).sub
        (o.position.sub (Vec3.smul ((m - d) * 0.4) (Vec3.smul (1 / d) dv)))
      = Vec3.smul (1 + 2 * ((m - d) * 0.4 * (1 / d))) dv := by
    ext <;> simp [Vec3.add, Vec3.sub, Vec3.smul, hdv] <;> ring
  rw [hcomb, Vec3.length_smul]
  have h1 : 0 < m - d := by linarith
  have h2 : 0 < 1 / d := by
    apply div_pos one_pos h0
  have h3 : 0 ≤ (m - d) * 0.4 * (1 / d) :=
    mul_nonneg (mul_nonneg (le_of_lt h1) (by norm_num)) (le_of_lt h2)
  rw [abs_of_nonneg (by linarith)]
  field_simp
  ring

theorem ringOv_dist : (ringOvA.position.sub ringOvB.position).length = 0.2
    := by
  have h : ringOvA.position.sub ringOvB.position = ⟨0.2, 0, 0⟩ := by
    simp only [ringOvA, ringOvB, Vec3.sub]
    norm_num
  rw [h]
  unfold Vec3.length
  have h2 : (0.2 : ℝ) * 0.2 + 0 * 0 + 0 * 0 = (0.2 : ℝ) ^ 2 := by norm_num
  rw [h2, Real.sqrt_sq (by norm_num : (0 : ℝ) ≤ 0.2)]

/-- C6 counterexample: the rings `ringOvA`, `ringOvB` are a free pair whose
center distance 0.2 is below the configured minimum separation
`COLLISION_RADIUS * 1.6 = 1.072`, yet immediately after the positional
correction of the pair the center distance is 0.8976, which is not within a
small numerical tolerance (here 0.1) of the minimum separation: the
correction removes only 80% of the overlap. -/
theorem collision_separation_counterexample :
    ringOvB.isHooked = false ∧
    (ringOvA.position.sub ringOvB.position).length < COLLISION_RADIUS * 1.6 ∧
    ¬ (COLLISION_RADIUS * 1.6 - 0.1 ≤
        ((collidePair ringOvA ringOvB).1.position.sub
          (collidePair ringOvA ringOvB).2.position).length) := by
  have hm : COLLISION_RADIUS * 1.6 = 1.072 := by
    norm_num [COLLISION_RADIUS, RING_RADIUS, RING_THICKNESS]
  refine ⟨rfl, ?_, ?_⟩
  · rw [ringOv_dist, hm]
    norm_num
  · rw [collidePair_dist ringOvA ringOvB rfl
      (by rw [ringOv_dist]; norm_num)
      (by rw [ringOv_dist, hm]; norm_num)]
    rw [ringOv_dist, hm]
    norm_num

/-- C6 (corrected): for a pair of free rings with distinct centers closer
than the configured minimum separation `COLLISION_RADIUS * 1.6`, the
positional correction of the pair moves the centers to distance
`minSeparation - 0.2 * overlap` (it removes 80% of the overlap, split
symmetrically), which is at least 80% of the configured minimum separation
but in general not within a small numerical tolerance of it. -/
theorem collision_separation_amended (r o : RingState)
    (ho : o.isHooked = false)
    (h0 : 0 < (r.position.sub o.position).length)
    (hlt : (r.position.sub o.position).length < COLLISION_RADIUS * 1.6) :
    ((collidePair r o).1.position.sub (collidePair r o).2.position).length
      = COLLISION_RADIUS * 1.6
        - 0.2 * (COLLISION_RADIUS * 1.6 - (r.position.sub o.position).length)
    ∧ 0.8 * (COLLISION_RADIUS * 1.6)
      ≤ ((collidePair r o).1.position.sub
          (collidePair r o).2.position).length := by
  have h := collidePair_dist r o ho h0 hlt
  refine ⟨h, ?_⟩
  rw [h]
  linarith

/-- Closed witness for `collision_separation_amended` at the concrete pair
`ringOvA`, `ringOvB` of free rings 0.2 apart. -/
theorem collision_separation_amended_witness :
    ((collidePair ringOvA ringOvB).1.position.sub
      (collidePair ringOvA ringOvB).2.position).length
      = COLLISION_RADIUS * 1.6
        - 0.2 * (COLLISION_RADIUS * 1.6
          - (ringOvA.position.sub ringOvB.position).length)
    ∧ 0.8 * (COLLISION_RADIUS * 1.6)
      ≤ ((collidePair ringOvA ringOvB).1.position.sub
          (collidePair ringOvA ringOvB).2.position).length :=
  collision_separation_amended ringOvA ringOvB rfl
    (by rw [ringOv_dist]; norm_num)
    (by rw [ringOv_dist]; norm_num [COLLISION_RADIUS, RING_RADIUS,
      RING_THICKNESS])

/-- C9 counterexample: `ringCoA` and `ringCoB` are two free rings occupying
exactly the same point; the collision resolver leaves both positions
unchanged (the THREE.js guard normalizes the zero separation vector to the
zero vector, giving a zero push), so the pair is not pushed apart along any
fallback direction. -/
theorem coincident_rings_no_push_counterexample :
    ringCoA.position = ringCoB.position ∧
    (collidePair ringCoA ringCoB).1.position = ringCoA.position ∧
    (collidePair ringCoA ringCoB).2.position = ringCoB.position := by
  have h := collidePair_coincident ringCoA ringCoB rfl rfl
  rw [h]
  exact ⟨rfl, rfl, rfl⟩

/-- C9 (corrected): when two rings occupy exactly the same point, the
separation vector has length zero and THREE's `normalize` guard divides it
by 1, yielding the zero vector: the resolver's push and impulse are both
zero and the pair is returned unchanged.  No undefined value is produced
(the computation is total), but the rings are not pushed apart along any
fallback direction. -/
theorem coincident_rings_resolution_noop (r o : RingState)
    (ho : o.isHooked = false) (hpos : r.position = o.position) :
    collidePair r o = (r, o) :=
  collidePair_coincident r o ho hpos

/-- Closed witness for `coincident_rings_resolution_noop` at the concrete
coincident pair `ringCoA`, `ringCoB`. -/
theorem coincident_rings_resolution_noop_witness :
    collidePair ringCoA ringCoB = (ringCoA, ringCoB) :=
  coincident_rings_resolution_noop ringCoA ringCoB rfl rfl

/-- C8: the free-ring kinematic update performs, in source order,
`velocity += force`, `velocity *= WATER_DRAG`, `position += velocity`,
`angularVelocity *= ROTATION_DRAG`, `orientation += angularVelocity`, with
`WATER_DRAG` a constant in (0, 1); consequently the new position equals the
old position plus `WATER_DRAG * (old velocity + force)`, componentwise. -/
theorem integrator_update_order (env : Env) (idx : ℕ) (r : RingState) :
    (0 < WATER_DRAG ∧ WATER_DRAG < 1) ∧
    (freeDynamics env idx r).velocity
      = Vec3.smul WATER_DRAG (r.velocity.add (forceOf env idx r)) ∧
    (freeDynamics env idx r).position.x
      = r.position.x + WATER_DRAG * (r.velocity.x + (forceOf env idx r).x) ∧
    (freeDynamics env idx r).position.y
      = r.position.y + WATER_DRAG * (r.velocity.y + (forceOf env idx r).y) ∧
    (freeDynamics env idx r).position.z
      = r.position.z + WATER_DRAG * (r.velocity.z + (forceOf env idx r).z) ∧
    (freeDynamics env idx r).angularVelocity
      = Vec3.smul ROTATION_DRAG (angVelOf env idx r) ∧
    (freeDynamics env idx r).rotation
      = r.rotation.add (Vec3.smul ROTATION_DRAG (angVelOf env idx r)) := by
  refine ⟨⟨by norm_num [WATER_DRAG], by norm_num [WATER_DRAG]⟩,
    ?_, ?_, ?_, ?_, ?_, ?_⟩ <;>
    simp [freeDynamics, Vec3.add, Vec3.smul]

/-- C10: with a current active and a free ring exactly on the tank's Z axis,
the vortex vector is zero, its normalization is the zero vector (total, no
undefined value), and the frame's net force is exactly the gravity-plus-
buoyancy base plus the random jitter. -/
theorem vortex_force_total_at_axis (env : Env) (idx : ℕ) (r : RingState)
    (hact : (env.leftActive || env.rightActive) = true)
    (hx : r.position.x = 0) (hy : r.position.y = 0) :
    forceOf env idx r =
      ⟨(env.randFX idx - 0.5) * 0.005,
       GRAVITY + BUOYANCY + (env.randFY idx - 0.5) * 0.005, 0⟩ := by
  have hva : (⟨r.position.y * 0.4, -r.position.x * 0.4, 0⟩ : Vec3)
      = ⟨0, 0, 0⟩ := by
    rw [hx, hy]
    norm_num
  have hvb : (⟨-r.position.y * 0.4, r.position.x * 0.4, 0⟩ : Vec3)
      = ⟨0, 0, 0⟩ := by
    rw [hx, hy]
    norm_num
  unfold forceOf
  rw [if_pos hact]
  cases hL : env.leftActive <;>
    simp only [hL, if_true, Bool.false_eq_true, if_false, hva, hvb,
      Vec3.normalize_zero] <;>
    · show Vec3.mk _ _ _ = _
      rw [show Vec3.smul PUSH_FORCE ⟨0, 0, 0⟩ = ⟨0, 0, 0⟩ from
        Vec3.smul_zero_vec _]
      simp [Vec3.add]

/-- Closed witness for `vortex_force_total_at_axis`: the ring at the origin
under the active left current. -/
theorem vortex_force_total_at_axis_witness :
    forceOf envW 0 ringOrigin =
      ⟨(envW.randFX 0 - 0.5) * 0.005,
       GRAVITY + BUOYANCY + (envW.randFY 0 - 0.5) * 0.005, 0⟩ :=
  vortex_force_total_at_axis envW 0 ringOrigin rfl rfl rfl

theorem floorLoop_ge_acc (r : RingState) (idx : ℕ) :
    ∀ (l : List RingState) (acc : ℝ) (k : ℕ), acc ≤ floorLoop r idx acc k l
    := by
  intro l
  induction l with
  | nil => intro acc k; simp [floorLoop]
  | cons o rest ih =>
    intro acc k
    show acc ≤ floorLoop r idx _ (k + 1) rest
    refine le_trans ?_ (ih _ _)
    dsimp only
    split_ifs
    · exact le_max_left _ _
    · exact le_refl _
    · exact le_refl _

theorem floorLoop_ge_mem (r : RingState) (idx : ℕ) :
    ∀ (l : List RingState) (acc : ℝ) (k m : ℕ) (o : RingState),
      l.get? m = some o → k + m ≠ idx →
      o.isHooked = true → o.hookedTo = r.hookedTo →
      r.position.y - o.position.y > -0.01 →
      r.position.y - o.position.y < RING_THICKNESS * 2.8 →
      o.position.y + RING_THICKNESS * 2.2 ≤ floorLoop r idx acc k l := by
  intro l
  induction l with
  | nil => intro acc k m o hget; simp at hget
  | cons p rest ih =>
    intro acc k m o hget hne hh ht hw1 hw2
    cases m with
    | zero =>
      have hp : p = o := by simpa using hget
      subst hp
      show _ ≤ floorLoop r idx _ (k + 1) rest
      refine le_trans ?_ (floorLoop_ge_acc r idx rest _ _)
      dsimp only
      rw [if_pos ⟨by omega, hh, ht⟩, if_pos ⟨hw1, hw2⟩]
      exact le_max_right _ _
    | succ m' =>
      have hget' : rest.get? m' = some o := by simpa using hget
      exact ih _ (k + 1) m' o hget' (by omega) hh ht hw1 hw2

theorem computeFloorY_ge (rs : List RingState) (idx : ℕ) (r : RingState)
    (j : ℕ) (o : RingState) (hne : j ≠ idx) (hget : rs.get? j = some o)
    (hh : o.isHooked = true) (ht : o.hookedTo = r.hookedTo)
    (hw1 : r.position.y - o.position.y > -0.01)
    (hw2 : r.position.y - o.position.y < RING_THICKNESS * 2.8) :
    o.position.y + RING_THICKNESS * 2.2 ≤ computeFloorY rs idx r :=
  floorLoop_ge_mem r idx rs (-3.4) 0 j o hget (by omega) hh ht hw1 hw2

/-- C7: two rings hooked to the same post that are both settled at their
computed floor heights (each ring's Y equals the floor the Stack Resolver
computes for it in the current configuration) have Y positions at least
`RING_THICKNESS * 2.2` apart, i.e. `2 x thickness x 1.1`: settled rings on
one post never occupy overlapping vertical intervals. -/
theorem stacked_rings_min_separation (rs : List RingState) (i j : ℕ)
    (ri rj : RingState) (hij : i ≠ j)
    (hi : rs.get? i = some ri) (hj : rs.get? j = some rj)
    (hhi : ri.isHooked = true) (hhj : rj.isHooked = true)
    (hsame : ri.hookedTo = rj.hookedTo)
    (hsi : ri.position.y = computeFloorY rs i ri)
    (hsj : rj.position.y = computeFloorY rs j rj) :
    RING_THICKNESS * 2.2 ≤ |ri.position.y - rj.position.y| := by
  by_contra hcon
  push_neg at hcon
  have hth22 : RING_THICKNESS * 2.2 = 0.33 := by norm_num [RING_THICKNESS]
  have hth28 : RING_THICKNESS * 2.8 = 0.42 := by norm_num [RING_THICKNESS]
  rw [hth22] at hcon
  obtain ⟨hc1, hc2⟩ := abs_lt.mp hcon
  by_cases hgt : ri.position.y - rj.position.y > -0.01
  · have hge := computeFloorY_ge rs i ri j rj (Ne.symm hij) hj hhj
      hsame.symm hgt (by rw [hth28]; linarith)
    rw [← hsi] at hge
    rw [hth22] at hge
    linarith
  · push_neg at hgt
    have hw1 : rj.position.y - ri.position.y > -0.01 := by linarith
    have hw2 : rj.position.y - ri.position.y < RING_THICKNESS * 2.8 := by
      rw [hth28]; linarith
    have hge := computeFloorY_ge rs j rj i ri hij hi hhi hsame hw1 hw2
    rw [← hsj] at hge
    rw [hth22] at hge
    linarith

theorem stackA_settled :
    ringStackA.position.y = computeFloorY stackW 0 ringStackA := by
  unfold computeFloorY stackW
  rw [floorLoop, floorLoop, floorLoop]
  simp only [ringStackA, ringStackB]
  norm_num [RING_THICKNESS, max_def]

theorem stackB_settled :
    ringStackB.position.y = computeFloorY stackW 1 ringStackB := by
  unfold computeFloorY stackW
  rw [floorLoop, floorLoop, floorLoop]
  simp only [ringStackA, ringStackB]
  norm_num [RING_THICKNESS, max_def]

/-- Closed witness for `stacked_rings_min_separation`: the concrete settled
pair `ringStackA`, `ringStackB` on the left post. -/
theorem stacked_rings_min_separation_witness :
    RING_THICKNESS * 2.2 ≤ |ringStackA.position.y - ringStackB.position.y| :=
  stacked_rings_min_separation stackW 0 1 ringStackA ringStackB
    (by omega) rfl rfl rfl rfl rfl stackA_settled stackB_settled

theorem distToAxis_ge_abs (nx : ℝ) (r : RingState) :
    |r.position.x - nx| ≤ distToAxis nx r := by
  unfold distToAxis
  rw [← Real.sqrt_mul_self_eq_abs]
  apply Real.sqrt_le_sqrt
  nlinarith [mul_self_nonneg r.position.z]

theorem hookGeom_not_both (r : RingState) (hL : hookGeom (-2.5) r) :
    ¬ hookGeom 2.5 r := by
  intro hR
  have h1 := lt_of_le_of_lt (distToAxis_ge_abs (-2.5) r) hL.1
  have h2 := lt_of_le_of_lt (distToAxis_ge_abs 2.5 r) hR.1
  rw [show NEEDLE_RADIUS + RING_RADIUS * 0.5 = 0.38 by
    norm_num [NEEDLE_RADIUS, RING_RADIUS]] at h1 h2
  obtain ⟨h1a, h1b⟩ := abs_lt.mp h1
  obtain ⟨h2a, h2b⟩ := abs_lt.mp h2
  linarith

theorem hookCheckPost_fire (env : Env) (idx : ℕ) (nx : ℝ) (side : Side)
    (r : RingState) (hg : hookGeom nx r)
    (htr : hookTrigger env idx nx side r) :
    hookCheckPost env idx nx side r
      = { r with isHooked := true, hookedTo := some side,
                 velocity := Vec3.zero, angularVelocity := Vec3.zero } := by
  unfold hookCheckPost
  rw [if_pos hg, if_pos htr]

theorem hookCheckPost_skip (env : Env) (idx : ℕ) (nx : ℝ) (side : Side)
    (r : RingState)
    (h : ¬ (hookGeom nx r ∧ hookTrigger env idx nx side r)) :
    hookCheckPost env idx nx side r = r := by
  unfold hookCheckPost
  by_cases hg : hookGeom nx r
  · rw [if_pos hg, if_neg (fun htr => h ⟨hg, htr⟩)]
  · rw [if_neg hg]

/-- C5: a free ring transitions to hooked on post `s` in the hooking phase
exactly when the three conjunctive conditions hold for that post (near-axis
distance, Y range, threadable X tilt modulo pi) and at least one trigger
holds (falling, within the tighter near-exact-axis threshold, or the
stochastic acceptance).  The two posts are geometrically exclusive, so the
left-then-right evaluation order never overwrites a same-frame hook. -/
theorem hook_transition_characterization (env : Env) (idx : ℕ)
    (r : RingState) (hfree : r.isHooked = false) (s : Side) :
    ((hookPhase env idx r).isHooked = true ∧
      (hookPhase env idx r).hookedTo = some s)
    ↔ (hookGeom (postX s) r ∧ hookTrigger env idx (postX s) s r) := by
  unfold hookPhase
  by_cases hLfire :
      hookGeom (-2.5) r ∧ hookTrigger env idx (-2.5) Side.left r
  · rw [hookCheckPost_fire env idx (-2.5) Side.left r hLfire.1 hLfire.2]
    rw [hookCheckPost_skip env idx 2.5 Side.right { r with isHooked := true, hookedTo := some Side.left, velocity := Vec3.zero, angularVelocity := Vec3.zero } (by intro hc; exact hookGeom_not_both r hLfire.1 hc.1)]
    cases s with
    | left =>
      constructor
      · intro _
        exact ⟨hLfire.1, hLfire.2⟩
      · intro _
        exact ⟨rfl, rfl⟩
    | right =>
      constructor
      · intro hcon
        exact absurd hcon.2 (by simp)
      · intro hcon
        exact absurd hcon.1 (hookGeom_not_both r hLfire.1)
  · rw [hookCheckPost_skip env idx (-2.5) Side.left r hLfire]
    by_cases hRfire :
        hookGeom 2.5 r ∧ hookTrigger env idx 2.5 Side.right r
    · rw [hookCheckPost_fire env idx 2.5 Side.right r hRfire.1 hRfire.2]
      cases s with
      | left =>
        constructor
        · intro hcon
          exact absurd hcon.2 (by simp)
        · intro hcon
          exact hLfire hcon |>.elim
      | right =>
        constructor
        · intro _
          exact ⟨hRfire.1, hRfire.2⟩
        · intro _
          exact ⟨rfl, rfl⟩
    · rw [hookCheckPost_skip env idx 2.5 Side.right r hRfire]
      cases s with
      | left =>
        constructor
        · intro hcon
          rw [hfree] at hcon
          exact absurd hcon.1 (by simp)
        · intro hcon
          exact hLfire hcon |>.elim
      | right =>
        constructor
        · intro hcon
          rw [hfree] at hcon
          exact absurd hcon.1 (by simp)
        · intro hcon
          exact hRfire hcon |>.elim

/-- Closed witness for `hook_transition_characterization` at the free ring
`ringOrigin` and the left post. -/
theorem hook_transition_characterization_witness :
    ((hookPhase envW 0 ringOrigin).isHooked = true ∧
      (hookPhase envW 0 ringOrigin).hookedTo = some Side.left)
    ↔ (hookGeom (postX Side.left) ringOrigin ∧
        hookTrigger envW 0 (postX Side.left) Side.left ringOrigin) :=
  hook_transition_characterization envW 0 ringOrigin rfl Side.left

theorem collidePair_of_hooked (r o : RingState) (h : o.isHooked = true) :
    collidePair r o = (r, o) := by
  unfold collidePair
  rw [if_pos h]

theorem collidePair_fst_isHooked (r o : RingState) :
    (collidePair r o).1.isHooked = r.isHooked := by
  simp only [collidePair]
  split_ifs <;> rfl

theorem collidePair_fst_hookedTo (r o : RingState) :
    (collidePair r o).1.hookedTo = r.hookedTo := by
  simp only [collidePair]
  split_ifs <;> rfl

theorem collidePair_snd_isHooked (r o : RingState) :
    (collidePair r o).2.isHooked = o.isHooked := by
  simp only [collidePair]
  split_ifs <;> rfl

theorem collidePair_snd_hookedTo (r o : RingState) :
    (collidePair r o).2.hookedTo = o.hookedTo := by
  simp only [collidePair]
  split_ifs <;> rfl

theorem collideLoop_cons (j : ℕ) (t : List ℕ)
    (acc : RingState × List RingState) :
    collideLoop (j :: t) acc
      = collideLoop t
          (match acc.2.get? j with
           | some other =>
             ((collidePair acc.1 other).1,
              acc.2.set j (collidePair acc.1 other).2)
           | none => acc) := rfl

theorem collideLoop_snd_length :
    ∀ (l : List ℕ) (acc : RingState × List RingState),
      (collideLoop l acc).2.length = acc.2.length := by
  intro l
  induction l with
  | nil => intro acc; rfl
  | cons j t ih =>
    intro acc
    rw [collideLoop_cons]
    cases hg : acc.2.get? j with
    | none => simp only [hg]; exact ih acc
    | some other =>
      simp only [hg]
      rw [ih]
      exact List.length_set acc.2 j _

theorem collideLoop_get_ne :
    ∀ (l : List ℕ) (acc : RingState × List RingState) (i : ℕ),
      (∀ x ∈ l, x ≠ i) →
      (collideLoop l acc).2.get? i = acc.2.get? i := by
  intro l
  induction l with
  | nil => intro acc i _; rfl
  | cons j t ih =>
    intro acc i hne
    rw [collideLoop_cons]
    cases hg : acc.2.get? j with
    | none =>
      simp only [hg]
      exact ih acc i (fun x hx => hne x (List.mem_cons_of_mem j hx))
    | some other =>
      simp only [hg]
      rw [ih _ i (fun x hx => hne x (List.mem_cons_of_mem j hx))]
      exact List.get?_set_ne _ _ (hne j (List.mem_cons_self j t))

theorem collideLoop_fst_hookview :
    ∀ (l : List ℕ) (acc : RingState × List RingState),
      hookview (collideLoop l acc).1 = hookview acc.1 := by
  intro l
  induction l with
  | nil => intro acc; rfl
  | cons j t ih =>
    intro acc
    rw [collideLoop_cons]
    cases hg : acc.2.get? j with
    | none => simp only [hg]; exact ih acc
    | some other =>
      simp only [hg]
      rw [ih]
      unfold hookview
      rw [collidePair_fst_isHooked, collidePair_fst_hookedTo]

theorem collideLoop_snd_hookview :
    ∀ (l : List ℕ) (acc : RingState × List RingState) (i : ℕ),
      ((collideLoop l acc).2.get? i).map hookview
        = (acc.2.get? i).map hookview := by
  intro l
  induction l with
  | nil => intro acc i; rfl
  | cons j t ih =>
    intro acc i
    rw [collideLoop_cons]
    cases hg : acc.2.get? j with
    | none => simp only [hg]; exact ih acc i
    | some other =>
      simp only [hg]
      rw [ih]
      by_cases hij : j = i
      · subst hij
        have hlt : j < acc.2.length := by
          by_contra hcon
          rw [List.get?_eq_none.mpr (le_of_not_lt hcon)] at hg
          exact Option.noConfusion hg
        rw [List.get?_set_eq_of_lt _ hlt, hg]
        simp [hookview, collidePair_snd_isHooked, collidePair_snd_hookedTo]
      · rw [List.get?_set_ne _ _ hij]

theorem collideLoop_hookedZero :
    ∀ (l : List ℕ) (acc : RingState × List RingState),
      hookedZero acc.2 → hookedZero (collideLoop l acc).2 := by
  intro l
  induction l with
  | nil => intro acc h; exact h
  | cons j t ih =>
    intro acc h
    rw [collideLoop_cons]
    cases hg : acc.2.get? j with
    | none => simp only [hg]; exact ih acc h
    | some other =>
      simp only [hg]
      refine ih _ ?_
      intro i r' hget hh
      by_cases hij : j = i
      · subst hij
        have hlt : j < acc.2.length := by
          by_contra hcon
          rw [List.get?_eq_none.mpr (le_of_not_lt hcon)] at hg
          exact Option.noConfusion hg
        rw [List.get?_set_eq_of_lt _ hlt] at hget
        have hr' : r' = (collidePair acc.1 other).2 := by
          injection hget with h
          exact h.symm
        have hohook : other.isHooked = true := by
          rw [hr'] at hh
          rw [collidePair_snd_isHooked] at hh
          exact hh
        rw [hr', collidePair_of_hooked acc.1 other hohook]
        exact h j other hg hohook
      · rw [List.get?_set_ne _ _ hij] at hget
        exact h i r' hget hh

theorem freeDynamics_isHooked (env : Env) (idx : ℕ) (r : RingState) :
    (freeDynamics env idx r).isHooked = r.isHooked := rfl

theorem clampBoundary_isHooked (r : RingState) :
    (clampBoundary r).isHooked = r.isHooked := rfl

theorem hookedUpdate_isHooked (rs : List RingState) (idx : ℕ)
    (r : RingState) : (hookedUpdate rs idx r).isHooked = r.isHooked := rfl

theorem hookedUpdate_hookedTo (rs : List RingState) (idx : ℕ)
    (r : RingState) : (hookedUpdate rs idx r).hookedTo = r.hookedTo := rfl

theorem hookedUpdate_angularVelocity (rs : List RingState) (idx : ℕ)
    (r : RingState) :
    (hookedUpdate rs idx r).angularVelocity = r.angularVelocity := rfl

theorem hookedUpdate_velocity (rs : List RingState) (idx : ℕ)
    (r : RingState) :
    (hookedUpdate rs idx r).velocity = r.velocity ∨
    (hookedUpdate rs idx r).velocity = Vec3.zero := by
  simp only [hookedUpdate]
  split_ifs
  · left; rfl
  · right; rfl

theorem hookCheckPost_cases (env : Env) (idx : ℕ) (nx : ℝ) (side : Side)
    (r : RingState) :
    hookCheckPost env idx nx side r = r ∨
    ((hookCheckPost env idx nx side r).velocity = Vec3.zero ∧
     (hookCheckPost env idx nx side r).angularVelocity = Vec3.zero ∧
     (hookCheckPost env idx nx side r).isHooked = true) := by
  unfold hookCheckPost
  split_ifs
  · right; exact ⟨rfl, rfl, rfl⟩
  · left; rfl
  · left; rfl

theorem hookPhase_hooked_zero (env : Env) (idx : ℕ) (r : RingState)
    (hfree : r.isHooked = false)
    (hh : (hookPhase env idx r).isHooked = true) :
    (hookPhase env idx r).velocity = Vec3.zero ∧
    (hookPhase env idx r).angularVelocity = Vec3.zero := by
  unfold hookPhase at *
  rcases hookCheckPost_cases env idx 2.5 Side.right
      (hookCheckPost env idx (-2.5) Side.left r) with h2 | h2
  · rw [h2] at hh ⊢
    rcases hookCheckPost_cases env idx (-2.5) Side.left r with h1 | h1
    · rw [h1, hfree] at hh
      exact absurd hh (by simp)
    · exact ⟨h1.1, h1.2.1⟩
  · exact ⟨h2.1, h2.2.1⟩

theorem hookCheckPost_position (env : Env) (idx : ℕ) (nx : ℝ) (side : Side)
    (r : RingState) :
    (hookCheckPost env idx nx side r).position = r.position := by
  unfold hookCheckPost
  split_ifs <;> rfl

theorem hookPhase_position (env : Env) (idx : ℕ) (r : RingState) :
    (hookPhase env idx r).position = r.position := by
  unfold hookPhase
  rw [hookCheckPost_position, hookCheckPost_position]

theorem collideFrom_snd_length (idx : ℕ) (r : RingState)
    (rs : List RingState) : (collideFrom idx r rs).2.length = rs.length := by
  unfold collideFrom
  exact collideLoop_snd_length _ _

theorem collideFrom_fst_isHooked (idx : ℕ) (r : RingState)
    (rs : List RingState) : (collideFrom idx r rs).1.isHooked = r.isHooked :=
  congrArg Prod.fst (collideLoop_fst_hookview _ _)

theorem framePass_length (env : Env) (acc : List RingState × ℕ) (i : ℕ) :
    (framePass env acc i).1.length = acc.1.length := by
  cases hgi : acc.1.get? i with
  | none => simp only [framePass, hgi]
  | some r =>
    simp only [framePass, hgi]
    split_ifs
    · exact List.length_set _ _ _
    · simp only [processFree]
      rw [List.length_set]
      exact collideFrom_snd_length _ _ _

theorem framePass_get_lt (env : Env) (acc : List RingState × ℕ) (i j : ℕ)
    (h : j < i) : (framePass env acc i).1.get? j = acc.1.get? j := by
  cases hgi : acc.1.get? i with
  | none => simp only [framePass, hgi]
  | some r =>
    simp only [framePass, hgi]
    split_ifs
    · exact List.get?_set_ne _ _ (by omega)
    · simp only [processFree]
      rw [List.get?_set_ne _ _ (by omega)]
      unfold collideFrom collideLoop
      apply collideLoop_get_ne
      intro x hx
      have hmem := (List.mem_range'_1.mp hx).1
      omega

theorem framePass_hookview (env : Env) (acc : List RingState × ℕ) (i j : ℕ)
    (h : j ≠ i) :
    ((framePass env acc i).1.get? j).map hookview
      = (acc.1.get? j).map hookview := by
  cases hgi : acc.1.get? i with
  | none => simp only [framePass, hgi]
  | some r =>
    simp only [framePass, hgi]
    split_ifs
    · rw [List.get?_set_ne _ _ (Ne.symm h)]
    · simp only [processFree]
      rw [List.get?_set_ne _ _ (Ne.symm h)]
      exact collideLoop_snd_hookview _ _ j

theorem framePass_hookedZero (env : Env) (acc : List RingState × ℕ) (i : ℕ)
    (h : hookedZero acc.1) : hookedZero (framePass env acc i).1 := by
  cases hgi : acc.1.get? i with
  | none => simpa only [framePass, hgi] using h
  | some r =>
    have hlt : i < acc.1.length := by
      by_contra hcon
      rw [List.get?_eq_none.mpr (le_of_not_lt hcon)] at hgi
      exact Option.noConfusion hgi
    simp only [framePass, hgi]
    split_ifs with hr
    · intro j r' hget hh
      by_cases hij : i = j
      · subst hij
        rw [List.get?_set_eq_of_lt _ hlt] at hget
        injection hget with he
        obtain ⟨hv, ha⟩ := h i r hgi hr
        constructor
        · rcases hookedUpdate_velocity acc.1 i r with hvel | hvel
          · rw [← he, hvel, hv]
          · rw [← he, hvel]
        · rw [← he, hookedUpdate_angularVelocity, ha]
      · rw [List.get?_set_ne _ _ hij] at hget
        exact h j r' hget hh
    · simp only [processFree]
      intro j r' hget hh
      by_cases hij : i = j
      · subst hij
        have hlen : i < (collideFrom i (freeDynamics env i r) acc.1).2.length
            := by
          rw [collideFrom_snd_length]
          exact hlt
        rw [List.get?_set_eq_of_lt _ hlen] at hget
        injection hget with he
        subst he
        refine hookPhase_hooked_zero env i _ ?_ hh
        rw [clampBoundary_isHooked, collideFrom_fst_isHooked,
          freeDynamics_isHooked]
        exact Bool.not_eq_true _ |>.mp hr
      · rw [List.get?_set_ne _ _ hij] at hget
        have hcz : hookedZero (collideFrom i (freeDynamics env i r) acc.1).2
            := by
          unfold collideFrom
          exact collideLoop_hookedZero _ _ h
        exact hcz j r' hget hh

theorem passes_succ (env : Env) (rs : List RingState) (k : ℕ) :
    passes env rs (k + 1) = framePass env (passes env rs k) k := by
  unfold passes
  rw [List.range_succ, List.foldl_append]
  rfl

theorem passes_length (env : Env) (rs : List RingState) (k : ℕ) :
    (passes env rs k).1.length = rs.length := by
  induction k with
  | zero => rfl
  | succ n ih =>
    rw [passes_succ, framePass_length]
    exact ih

theorem passes_get_stable (env : Env) (rs : List RingState) (i k : ℕ)
    (h : i < k) :
    (passes env rs k).1.get? i = (passes env rs (i + 1)).1.get? i := by
  induction k with
  | zero => omega
  | succ n ih =>
    by_cases hn : i < n
    · rw [passes_succ, framePass_get_lt _ _ _ _ hn]
      exact ih hn
    · have hni : n = i := by omega
      subst hni
      rfl

theorem passes_hookview_of_hooked (env : Env) (rs : List RingState) (i : ℕ)
    (r : RingState) (hget : rs.get? i = some r) (hh : r.isHooked = true) :
    ∀ k, ((passes env rs k).1.get? i).map hookview = some (hookview r) := by
  intro k
  induction k with
  | zero =>
    show (rs.get? i).map hookview = some (hookview r)
    rw [hget]
    rfl
  | succ n ih =>
    rw [passes_succ]
    by_cases hn : n = i
    · subst hn
      obtain ⟨rn, hrn, hvn⟩ : ∃ rn, (passes env rs n).1.get? n = some rn ∧
          hookview rn = hookview r := by
        rcases hopt : (passes env rs n).1.get? n with _ | rn
        · rw [hopt] at ih
          exact Option.noConfusion ih
        · rw [hopt] at ih
          refine ⟨rn, rfl, ?_⟩
          injection ih
      have hrn_hooked : rn.isHooked = true := by
        have hfst : rn.isHooked = r.isHooked := congrArg Prod.fst hvn
        rw [hfst, hh]
      have hlt : n < (passes env rs n).1.length := by
        rw [passes_length]
        by_contra hcon
        rw [List.get?_eq_none.mpr (le_of_not_lt hcon)] at hget
        exact Option.noConfusion hget
      simp only [framePass, hrn]
      rw [if_pos hrn_hooked]
      show ((((passes env rs n).1.set n
        (hookedUpdate (passes env rs n).1 n rn))).get? n).map hookview = _
      rw [List.get?_set_eq_of_lt _ hlt]
      show some (hookview (hookedUpdate (passes env rs n).1 n rn)) = _
      rw [show hookview (hookedUpdate (passes env rs n).1 n rn)
        = hookview rn from rfl, hvn]
    · rw [framePass_hookview env _ n i (fun he => hn he.symm)]
      exact ih

theorem frameRings_get_hooked (env : Env) (rs : List RingState) (i : ℕ)
    (r : RingState) (hget : rs.get? i = some r) (hh : r.isHooked = true) :
    ∃ r', (frameRings env rs).1.get? i = some r' ∧ r'.isHooked = true ∧
      r'.hookedTo = r.hookedTo := by
  have h := passes_hookview_of_hooked env rs i r hget hh rs.length
  unfold frameRings
  rcases hopt : (passes env rs rs.length).1.get? i with _ | r'
  · rw [hopt] at h
    exact Option.noConfusion h
  · rw [hopt] at h
    have hv : hookview r' = hookview r := by injection h
    unfold hookview at hv
    rw [Prod.mk.injEq] at hv
    exact ⟨r', rfl, by rw [hv.1, hh], hv.2⟩

/-- C2: hook-state monotonicity along a session trace: if ring `i` is hooked
after `n` frames then after any `m ≥ n` frames it is still hooked, to the
same post.  No branch of the per-frame loop ever clears `isHooked` or
rewrites `hookedTo` of an already-hooked ring. -/
theorem hookState_monotone (envs : ℕ → Env) (s : SimState) (i n m : ℕ)
    (r : RingState) (hnm : n ≤ m)
    (hget : (runSim envs s n).rings.get? i = some r)
    (hh : r.isHooked = true) :
    ∃ r', (runSim envs s m).rings.get? i = some r' ∧ r'.isHooked = true ∧
      r'.hookedTo = r.hookedTo := by
  induction m, hnm using Nat.le_induction with
  | base => exact ⟨r, hget, hh, rfl⟩
  | succ m hm ih =>
    obtain ⟨r', h1, h2, h3⟩ := ih
    have hrs : (runSim envs s (m + 1)).rings
        = (frameRings (envs m) (runSim envs s m).rings).1 := rfl
    rw [hrs]
    obtain ⟨r'', g1, g2, g3⟩ :=
      frameRings_get_hooked (envs m) _ i r' h1 h2
    exact ⟨r'', g1, g2, g3.trans h3⟩

/-- Closed witness for `hookState_monotone`: a session whose single ring is
already hooked stays hooked with the same post through the next frame. -/
theorem hookState_monotone_witness :
    ∃ r', (runSim envsW simHooked 1).rings.get? 0 = some r' ∧
      r'.isHooked = true ∧ r'.hookedTo = ringStackB.hookedTo :=
  hookState_monotone envsW simHooked 0 0 1 ringStackB (by omega) rfl rfl

theorem frame_hookedZero (env : Env) (rs : List RingState)
    (h : hookedZero rs) : hookedZero (frameRings env rs).1 := by
  unfold frameRings
  suffices hs : ∀ k, hookedZero (passes env rs k).1 from hs rs.length
  intro k
  induction k with
  | zero => exact h
  | succ n ih =>
    rw [passes_succ]
    exact framePass_hookedZero _ _ _ ih

/-- C4: along any session trace whose start state satisfies it, the
invariant "every hooked ring has zero velocity and zero angular velocity"
holds at every frame boundary: both vectors are zeroed at the hooking
transition, and neither the Stack Resolver nor the collision pass ever
assigns a nonzero value to a hooked ring afterwards. -/
theorem hooked_ring_zero_velocity (envs : ℕ → Env) (s : SimState)
    (h : hookedZero s.rings) (n : ℕ) :
    hookedZero (runSim envs s n).rings := by
  induction n with
  | zero => exact h
  | succ m ih =>
    have hrs : (runSim envs s (m + 1)).rings
        = (frameRings (envs m) (runSim envs s m).rings).1 := rfl
    rw [hrs]
    exact frame_hookedZero _ _ ih

/-- Closed witness for `hooked_ring_zero_velocity`: the one-free-ring session
after one frame. -/
theorem hooked_ring_zero_velocity_witness :
    hookedZero (runSim envsW simW 1).rings := by
  refine hooked_ring_zero_velocity envsW simW ?_ 1
  intro i r hget hh
  cases i with
  | zero =>
    simp only [simW, List.get?] at hget
    injection hget with he
    rw [← he] at hh
    simp [ringOrigin] at hh
  | succ k =>
    simp [simW, List.get?] at hget

theorem clamp_axis (x h : ℝ) (hh : 0 ≤ h) :
    |if h < |x| then jsSign x * h else x| ≤ h := by
  split_ifs with hc
  · unfold jsSign
    split_ifs with h1 h2
    · rw [one_mul, abs_of_nonneg hh]
    · rw [neg_one_mul, abs_neg, abs_of_nonneg hh]
    · rw [zero_mul, abs_zero]
      exact hh
  · exact not_lt.mp hc

theorem clampBoundary_bounds (r : RingState) :
    |(clampBoundary r).position.x| ≤ TANK_SIZE / 2 - RING_RADIUS ∧
    |(clampBoundary r).position.y| ≤ TANK_SIZE / 2 - RING_RADIUS ∧
    |(clampBoundary r).position.z| ≤ 1.3 - RING_THICKNESS := by
  have hx : (0 : ℝ) ≤ TANK_SIZE / 2 - RING_RADIUS := by
    norm_num [TANK_SIZE, RING_RADIUS]
  have hz : (0 : ℝ) ≤ (1.3 : ℝ) - RING_THICKNESS := by
    norm_num [RING_THICKNESS]
  simp only [clampBoundary]
  exact ⟨clamp_axis _ _ hx, clamp_axis _ _ hx, clamp_axis _ _ hz⟩

/-- C3: at the end of any frame of the ring loop, every ring that is still
free lies within the tank bounds: its X and Y coordinates are at most
`TANK_SIZE / 2 - RING_RADIUS` in absolute value and its Z coordinate at most
`1.3 - RING_THICKNESS` (no epsilon is needed).  Collision corrections from
other rings' updates in the same frame only ever touch later-indexed rings,
which are clamped in their own later pass, so the clamp is the last position
write of every free ring's frame. -/
theorem free_ring_in_bounds_after_frame (env : Env) (rs : List RingState)
    (i : ℕ) (hi : i < rs.length) :
    ∃ r', (frameRings env rs).1.get? i = some r' ∧
      (r'.isHooked = false →
        |r'.position.x| ≤ TANK_SIZE / 2 - RING_RADIUS ∧
        |r'.position.y| ≤ TANK_SIZE / 2 - RING_RADIUS ∧
        |r'.position.z| ≤ 1.3 - RING_THICKNESS) := by
  have hstable : (frameRings env rs).1.get? i
      = (passes env rs (i + 1)).1.get? i :=
    passes_get_stable env rs i rs.length hi
  rw [hstable, passes_succ]
  have hlt : i < (passes env rs i).1.length := by
    rw [passes_length]
    exact hi
  rcases hA : (passes env rs i).1.get? i with _ | rA
  · rw [List.get?_eq_none] at hA
    omega
  · simp only [framePass, hA]
    split_ifs with hr
    · rw [List.get?_set_eq_of_lt _ hlt]
      refine ⟨_, rfl, ?_⟩
      intro hfree
      rw [hookedUpdate_isHooked, hr] at hfree
      exact absurd hfree (by simp)
    · simp only [processFree]
      have hlen : i <
          (collideFrom i (freeDynamics env i rA) (passes env rs i).1).2.length
          := by
        rw [collideFrom_snd_length, passes_length]
        exact hi
      rw [List.get?_set_eq_of_lt _ hlen]
      refine ⟨_, rfl, ?_⟩
      intro _
      rw [hookPhase_position]
      exact clampBoundary_bounds _

/-- Closed witness for `free_ring_in_bounds_after_frame`: a one-ring frame
with no current active. -/
theorem free_ring_in_bounds_after_frame_witness :
    ∃ r', (frameRings envQ [ringOrigin]).1.get? 0 = some r' ∧
      (r'.isHooked = false →
        |r'.position.x| ≤ TANK_SIZE / 2 - RING_RADIUS ∧
        |r'.position.y| ≤ TANK_SIZE / 2 - RING_RADIUS ∧
        |r'.position.z| ≤ 1.3 - RING_THICKNESS) :=
  free_ring_in_bounds_after_frame envQ [ringOrigin] 0 (by simp)

theorem firedAt_eq (envs : ℕ → Env) (s : SimState) (n : ℕ) :
    firedAt envs s n
      = ((tallyAt envs s n == RING_COUNT)
          && !(runSim envs s n).winTriggered) := rfl

theorem runSim_winTriggered_succ (envs : ℕ → Env) (s : SimState) (n : ℕ) :
    (runSim envs s (n + 1)).winTriggered
      = ((runSim envs s n).winTriggered
          || (tallyAt envs s n == RING_COUNT)) := by
  show ((runSim envs s n).winTriggered
      || ((tallyAt envs s n == RING_COUNT)
          && !(runSim envs s n).winTriggered)) = _
  cases hw : (runSim envs s n).winTriggered <;>
    cases ht : (tallyAt envs s n == RING_COUNT) <;> simp

theorem runSim_flag_iff (envs : ℕ → Env) (s : SimState) (n : ℕ) :
    (runSim envs s n).winTriggered = true
      ↔ (s.winTriggered = true ∨
          ∃ m, m < n ∧ tallyAt envs s m = RING_COUNT) := by
  induction n with
  | zero => simp [runSim]
  | succ k ih =>
    rw [runSim_winTriggered_succ, Bool.or_eq_true, ih, beq_iff_eq]
    constructor
    · rintro ((hs | ⟨m, hm, hp⟩) | hp)
      · exact Or.inl hs
      · exact Or.inr ⟨m, by omega, hp⟩
      · exact Or.inr ⟨k, by omega, hp⟩
    · rintro (hs | ⟨m, hm, hp⟩)
      · exact Or.inl (Or.inl hs)
      · by_cases hmk : m = k
        · subst hmk
          exact Or.inr hp
        · exact Or.inl (Or.inr ⟨m, by omega, hp⟩)

/-- C1: in a session started with the win flag unset, the win callback fires
on frame `n` exactly when the `hookedCount` tally of frame `n` equals
RING_COUNT and no earlier frame's tally did: it fires on the first such
frame and never on any other frame, the flag latching permanently while the
step function keeps running. -/
theorem win_signal_fires_once (envs : ℕ → Env) (s : SimState)
    (h : s.winTriggered = false) (n : ℕ) :
    firedAt envs s n = true
      ↔ (tallyAt envs s n = RING_COUNT ∧
          ∀ m, m < n → tallyAt envs s m ≠ RING_COUNT) := by
  rw [firedAt_eq, Bool.and_eq_true, beq_iff_eq]
  constructor
  · rintro ⟨h1, h2⟩
    refine ⟨h1, ?_⟩
    intro m hm hp
    have hflag : (runSim envs s n).winTriggered = true :=
      (runSim_flag_iff envs s n).mpr (Or.inr ⟨m, hm, hp⟩)
    rw [hflag] at h2
    exact Bool.noConfusion h2
  · rintro ⟨h1, h2⟩
    refine ⟨h1, ?_⟩
    cases hb : (runSim envs s n).winTriggered
    · rfl
    · rcases (runSim_flag_iff envs s n).mp hb with hs | ⟨m, hm, hp⟩
      · rw [h] at hs
        exact Bool.noConfusion hs
      · exact absurd hp (h2 m hm)

/-- Closed witness for `win_signal_fires_once`: the one-free-ring session at
its first frame. -/
theorem win_signal_fires_once_witness :
    firedAt envsW simW 0 = true
      ↔ (tallyAt envsW simW 0 = RING_COUNT ∧
          ∀ m, m < 0 → tallyAt envsW simW m ≠ RING_COUNT) :=
  win_signal_fires_once envsW simW rfl 0
